import Mathlib

/-!
Verification of the qibojit gate-dispatch engine (`src/qibojit/engines.py`).

The development embeds the dispatch layer of the two engines
(`NumbaEngine`, `CupyEngine`) as pure Lean functions that return a record
of the kernel invocation they would perform (kernel name, masks, group
counts, the qubits tensor and matrix passed), and embeds the
density-matrix adapter and channel accumulator.  The inner numeric
kernels live in `qibojit.custom_operators`, outside the dispatch module;
where a claim needs their semantics they are modelled from the spec as
matrix conjugation.
-/

namespace Qibojit

/-- Symbolic description of the matrix argument handed to a kernel:
either the gate matrix as produced by `_as_custom_matrix`, the inverse
`np.linalg.inv(asmatrix(gate))` used by the density-matrix `inverse`
mode, or `np.conj` of one of those. -/
inductive MatrixExpr where
  | asCustom : MatrixExpr
  | inverted : MatrixExpr
  | conj : MatrixExpr → MatrixExpr
deriving DecidableEq, Repr

/-- Returns `true` when the symbolic matrix involves `np.linalg.inv`. -/
def MatrixExpr.usesInv : MatrixExpr → Bool
  | .asCustom => false
  | .inverted => true
  | .conj m => m.usesInv

/-- A gate descriptor: class name, target qubits (ordered), control qubits. -/
structure Gate where
  name : String
  target_qubits : List Nat
  control_qubits : List Nat
deriving DecidableEq, Repr

/-- The `GATE_OPS` table mapping gate class names to specialized kernels. -/
def GATE_OPS : List (String × String) :=
  [("X", "apply_x"), ("CNOT", "apply_x"), ("TOFFOLI", "apply_x"),
   ("Y", "apply_y"), ("Z", "apply_z"), ("CZ", "apply_z"),
   ("U1", "apply_z_pow"), ("CU1", "apply_z_pow"), ("SWAP", "apply_swap"),
   ("fSim", "apply_fsim"), ("GeneralizedfSim", "apply_fsim")]

/-- Embedding of `GATE_OPS.get(name, default)`. -/
def gateOp (name default : String) : String :=
  (List.lookup name GATE_OPS).getD default

/-- Embedding of `ncontrols = len(qubits) - 1 if qubits is not None else 0`
(single-target dispatch).  Faithful to the source for the reachable
inputs, where the qubits tensor contains at least the target. -/
def ncontrols1 (qubits : Option (List Nat)) : Nat :=
  match qubits with
  | some qs => qs.length - 1
  | none => 0

/-- Embedding of `ncontrols = len(qubits) - 2 if qubits is not None else 0`
(two-target dispatch). -/
def ncontrols2 (qubits : Option (List Nat)) : Nat :=
  match qubits with
  | some qs => qs.length - 2
  | none => 0

/-- Embedding of `NumbaEngine._create_qubits_tensor`: control and target qubit indices
converted to bit positions `nqubits - q - 1` and sorted ascending. -/
def create_qubits_tensor (gate : Gate) (nqubits : Nat) : List Nat :=
  List.insertionSort (· ≤ ·)
    (gate.control_qubits.map (fun q => nqubits - q - 1) ++
     gate.target_qubits.map (fun q => nqubits - q - 1))

namespace Numba

/-- The kernel invocation produced by `NumbaEngine.one_qubit_base`:
the arguments it received plus the kernel name and kernel arguments it
computed. -/
structure OneQubitCall where
  nq : Nat
  target : Nat
  opIn : String
  gateIn : MatrixExpr
  qubitsIn : Option (List Nat)
  multicontrol : Bool
  kernelName : String
  qubitsPassed : Option (List Nat)
  nstates : Nat
  m : Nat
deriving DecidableEq, Repr

/-- Embedding of `NumbaEngine.one_qubit_base`. -/
def one_qubit_base (nqubits target : Nat) (kernel : String) (gate : MatrixExpr)
    (qubits : Option (List Nat)) : OneQubitCall :=
  let ncontrols := ncontrols1 qubits
  let m := nqubits - target - 1
  let nstates := 2 ^ (nqubits - ncontrols - 1)
  if ncontrols ≠ 0 then
    { nq := nqubits, target := target, opIn := kernel, gateIn := gate,
      qubitsIn := qubits, multicontrol := true,
      kernelName := "multicontrol_" ++ kernel ++ "_kernel",
      qubitsPassed := qubits, nstates := nstates, m := m }
  else
    { nq := nqubits, target := target, opIn := kernel, gateIn := gate,
      qubitsIn := qubits, multicontrol := false,
      kernelName := kernel ++ "_kernel",
      qubitsPassed := none, nstates := nstates, m := m }

/-- The kernel invocation produced by `NumbaEngine.two_qubit_base`. -/
structure TwoQubitCall where
  nq : Nat
  target1 : Nat
  target2 : Nat
  opIn : String
  gateIn : MatrixExpr
  qubitsIn : Option (List Nat)
  multicontrol : Bool
  kernelName : String
  qubitsPassed : Option (List Nat)
  nstates : Nat
  m1 : Nat
  m2 : Nat
  swap_targets : Bool
deriving DecidableEq, Repr

/-- Embedding of `NumbaEngine.two_qubit_base`. -/
def two_qubit_base (nqubits target1 target2 : Nat) (kernel : String)
    (gate : MatrixExpr) (qubits : Option (List Nat)) : TwoQubitCall :=
  let ncontrols := ncontrols2 qubits
  let st := if target1 > target2 then true else false
  let m1 := if target1 > target2 then nqubits - target1 - 1 else nqubits - target2 - 1
  let m2 := if target1 > target2 then nqubits - target2 - 1 else nqubits - target1 - 1
  let nstates := 2 ^ (nqubits - 2 - ncontrols)
  if ncontrols ≠ 0 then
    { nq := nqubits, target1 := target1, target2 := target2, opIn := kernel,
      gateIn := gate, qubitsIn := qubits, multicontrol := true,
      kernelName := "multicontrol_" ++ kernel ++ "_kernel",
      qubitsPassed := qubits, nstates := nstates, m1 := m1, m2 := m2,
      swap_targets := st }
  else
    { nq := nqubits, target1 := target1, target2 := target2, opIn := kernel,
      gateIn := gate, qubitsIn := qubits, multicontrol := false,
      kernelName := kernel ++ "_kernel",
      qubitsPassed := none, nstates := nstates, m1 := m1, m2 := m2,
      swap_targets := st }

/-- The kernel invocation produced by `NumbaEngine.multi_qubit_base`.
`kernel` is `none` when the `multi_qubit_kernels` dictionary lookup
misses (arity below 3 without the generic path). -/
structure MultiQubitCall where
  nq : Nat
  targetsIn : List Nat
  gateIn : MatrixExpr
  qubitsIn : Option (List Nat)
  kernel : Option String
  qubitsUsed : List Nat
  nstates : Nat
  targetMasks : List Nat
deriving DecidableEq, Repr

/-- The `NumbaEngine.multi_qubit_kernels` dictionary (arities 3..5). -/
def multi_qubit_kernels (ntargets : Nat) : Option String :=
  match ntargets with
  | 3 => some "apply_three_qubit_gate_kernel"
  | 4 => some "apply_four_qubit_gate_kernel"
  | 5 => some "apply_five_qubit_gate_kernel"
  | _ => none

/-- Embedding of `NumbaEngine.multi_qubit_base`.  Note: there is no arity bound in
this method; arity above 5 always routes to the generic kernel. -/
def multi_qubit_base (nqubits : Nat) (targets : List Nat) (gate : MatrixExpr)
    (qubits : Option (List Nat)) : MultiQubitCall :=
  let qubitsUsed :=
    match qubits with
    | some qs => qs
    | none => List.insertionSort (· ≤ ·) (targets.map (fun q => nqubits - q - 1))
  let nstates := 2 ^ (nqubits - qubitsUsed.length)
  let targetMasks := targets.reverse.map (fun t => 2 ^ (nqubits - t - 1))
  let kernel :=
    if targets.length > 5 then some "apply_multi_qubit_gate_kernel"
    else multi_qubit_kernels targets.length
  { nq := nqubits, targetsIn := targets, gateIn := gate, qubitsIn := qubits,
    kernel := kernel, qubitsUsed := qubitsUsed, nstates := nstates,
    targetMasks := targetMasks }

end Numba

namespace Cupy

/-- Embedding of `CupyEngine.DEFAULT_BLOCK_SIZE`. -/
def DEFAULT_BLOCK_SIZE : Nat := 1024

/-- Embedding of `CupyEngine.MAX_NUM_TARGETS`. -/
def MAX_NUM_TARGETS : Nat := 7

/-- Embedding of `CupyEngine.calculate_blocks`: number of blocks and threads per block
launched for `nstates` independent updates. -/
def calculate_blocks (nstates block_size : Nat) : Nat × Nat :=
  let nblocks := (nstates + block_size - 1) / block_size
  if nstates < block_size then (1, nstates) else (nblocks, block_size)

/-- The kernel launch produced by `CupyEngine.one_qubit_base`:
arguments received plus the launch configuration computed.  `gateArg` is
`none` for the kernels that do not take a matrix; `extra` is the
`(qubits, ncontrols + 1)` pair appended in the multicontrol branch. -/
structure OneQubitCall where
  nq : Nat
  target : Nat
  opIn : String
  gateIn : MatrixExpr
  qubitsIn : Option (List Nat)
  multicontrol : Bool
  kernelName : String
  tk : Nat
  m : Nat
  gateArg : Option MatrixExpr
  extra : Option (List Nat × Nat)
  nstates : Nat
  nblocks : Nat
  block_size : Nat
deriving DecidableEq, Repr

/-- Embedding of `CupyEngine.one_qubit_base` (`ktype` is the precision suffix
`self.kernel_type`). -/
def one_qubit_base (nqubits target : Nat) (kernel : String) (gate : MatrixExpr)
    (qubits : Option (List Nat)) (ktype : String) : OneQubitCall :=
  let ncontrols := ncontrols1 qubits
  let m := nqubits - target - 1
  let tk := 2 ^ m
  let nstates := 2 ^ (nqubits - ncontrols - 1)
  let gateArg :=
    if kernel = "apply_x" ∨ kernel = "apply_y" ∨ kernel = "apply_z" then none
    else some gate
  let bs := calculate_blocks nstates DEFAULT_BLOCK_SIZE
  if ncontrols ≠ 0 then
    { nq := nqubits, target := target, opIn := kernel, gateIn := gate,
      qubitsIn := qubits, multicontrol := true,
      kernelName := "multicontrol_" ++ kernel ++ "_kernel_" ++ ktype,
      tk := tk, m := m, gateArg := gateArg,
      extra := some (qubits.getD [], ncontrols + 1),
      nstates := nstates, nblocks := bs.1, block_size := bs.2 }
  else
    { nq := nqubits, target := target, opIn := kernel, gateIn := gate,
      qubitsIn := qubits, multicontrol := false,
      kernelName := kernel ++ "_kernel_" ++ ktype,
      tk := tk, m := m, gateArg := gateArg, extra := none,
      nstates := nstates, nblocks := bs.1, block_size := bs.2 }

/-- The kernel launch produced by `CupyEngine.two_qubit_base`. -/
structure TwoQubitCall where
  nq : Nat
  target1 : Nat
  target2 : Nat
  opIn : String
  gateIn : MatrixExpr
  qubitsIn : Option (List Nat)
  multicontrol : Bool
  kernelName : String
  tk1 : Nat
  tk2 : Nat
  m1 : Nat
  m2 : Nat
  uk1 : Nat
  uk2 : Nat
  gateArg : Option MatrixExpr
  extra : Option (List Nat × Nat)
  nstates : Nat
  nblocks : Nat
  block_size : Nat
deriving DecidableEq, Repr

/-- Embedding of `CupyEngine.two_qubit_base`. -/
def two_qubit_base (nqubits target1 target2 : Nat) (kernel : String)
    (gate : MatrixExpr) (qubits : Option (List Nat)) (ktype : String) :
    TwoQubitCall :=
  let ncontrols := ncontrols2 qubits
  let m1 := if target1 > target2 then nqubits - target1 - 1 else nqubits - target2 - 1
  let m2 := if target1 > target2 then nqubits - target2 - 1 else nqubits - target1 - 1
  let tk1 := 2 ^ m1
  let tk2 := 2 ^ m2
  let uk1 := if target1 > target2 then tk2 else tk1
  let uk2 := if target1 > target2 then tk1 else tk2
  let nstates := 2 ^ (nqubits - 2 - ncontrols)
  let gateArg := if kernel = "apply_swap" then none else some gate
  let bs := calculate_blocks nstates DEFAULT_BLOCK_SIZE
  if ncontrols ≠ 0 then
    { nq := nqubits, target1 := target1, target2 := target2, opIn := kernel,
      gateIn := gate, qubitsIn := qubits, multicontrol := true,
      kernelName := "multicontrol_" ++ kernel ++ "_kernel_" ++ ktype,
      tk1 := tk1, tk2 := tk2, m1 := m1, m2 := m2, uk1 := uk1, uk2 := uk2,
      gateArg := gateArg, extra := some (qubits.getD [], ncontrols + 2),
      nstates := nstates, nblocks := bs.1, block_size := bs.2 }
  else
    { nq := nqubits, target1 := target1, target2 := target2, opIn := kernel,
      gateIn := gate, qubitsIn := qubits, multicontrol := false,
      kernelName := kernel ++ "_kernel_" ++ ktype,
      tk1 := tk1, tk2 := tk2, m1 := m1, m2 := m2, uk1 := uk1, uk2 := uk2,
      gateArg := gateArg, extra := none,
      nstates := nstates, nblocks := bs.1, block_size := bs.2 }

/-- The kernel launch produced by `CupyEngine.multi_qubit_base` when the
arity check passes. -/
structure MultiQubitCall where
  nq : Nat
  targetsIn : List Nat
  gateIn : MatrixExpr
  qubitsIn : List Nat
  kernelName : String
  targetMasks : List Nat
  nstates : Nat
  nsubstates : Nat
  nactive : Nat
  nblocks : Nat
  block_size : Nat
deriving DecidableEq, Repr

/-- Embedding of `CupyEngine.multi_qubit_base`: rejects more than `MAX_NUM_TARGETS`
target qubits with a `ValueError`, otherwise launches the arity-
specialized generic multi-qubit kernel. -/
def multi_qubit_base (nqubits : Nat) (targets : List Nat) (gate : MatrixExpr)
    (qubits : List Nat) (ktype : String) : Except String MultiQubitCall :=
  let ntargets := targets.length
  if ntargets > MAX_NUM_TARGETS then
    Except.error ("Number of target qubits must be <= " ++ toString MAX_NUM_TARGETS
      ++ " but is " ++ toString ntargets ++ ".")
  else
    let nactive := qubits.length
    let targetMasks := targets.reverse.map (fun t => 2 ^ (nqubits - t - 1))
    let nstates := 2 ^ (nqubits - nactive)
    let nsubstates := 2 ^ ntargets
    let bs := calculate_blocks nstates DEFAULT_BLOCK_SIZE
    Except.ok
      { nq := nqubits, targetsIn := targets, gateIn := gate, qubitsIn := qubits,
        kernelName := "apply_multi_qubit_gate_kernel_" ++ ktype ++ "_" ++ toString ntargets,
        targetMasks := targetMasks, nstates := nstates, nsubstates := nsubstates,
        nactive := nactive, nblocks := bs.1, block_size := bs.2 }

end Cupy

namespace Numba

/-- One pure-state dispatch performed by the density-matrix adapter. -/
inductive BaseCall where
  | one : OneQubitCall → BaseCall
  | two : TwoQubitCall → BaseCall
  | multi : MultiQubitCall → BaseCall
deriving DecidableEq, Repr

/-- The `nqubits` argument the dispatcher received. -/
def BaseCall.nq : BaseCall → Nat
  | .one c => c.nq
  | .two c => c.nq
  | .multi c => c.nq

/-- The (symbolic) matrix argument the dispatcher received. -/
def BaseCall.gateIn : BaseCall → MatrixExpr
  | .one c => c.gateIn
  | .two c => c.gateIn
  | .multi c => c.gateIn

/-- The qubits tensor the dispatcher received. -/
def BaseCall.qubitsIn : BaseCall → Option (List Nat)
  | .one c => c.qubitsIn
  | .two c => c.qubitsIn
  | .multi c => c.qubitsIn

/-- The raw target-qubit indices the dispatcher received. -/
def BaseCall.rawTargets : BaseCall → List Nat
  | .one c => [c.target]
  | .two c => [c.target1, c.target2]
  | .multi c => c.targetsIn

/-- The bit positions `nq - t - 1` of the call's target qubits inside
the index space the dispatcher was invoked on. -/
def BaseCall.targetPositions (b : BaseCall) : List Nat :=
  b.rawTargets.map (fun t => b.nq - t - 1)

/-- Embedding of `NumbaEngine._apply_ygate_density_matrix`: ket side through the
specialized `apply_y` kernel, bra side forced through the generic
`apply_gate` kernel with the conjugated matrix.  The python `*targets`
unpack requires exactly one target; other shapes raise at runtime and
are rendered as an empty trace here. -/
def apply_ygate_density_matrix (gate : Gate) (nqubits : Nat)
    (shape : List Nat) : List BaseCall × List Nat :=
  let matrix := MatrixExpr.asCustom
  let qubits := create_qubits_tensor gate nqubits
  let qubits_dm := qubits.map (· + nqubits)
  match gate.target_qubits with
  | [t] =>
      ([BaseCall.one (one_qubit_base (2 * nqubits) t "apply_y" matrix (some qubits_dm)),
        BaseCall.one (one_qubit_base (2 * nqubits) (t + nqubits) "apply_gate"
          (MatrixExpr.conj matrix) (some qubits))], shape)
  | _ => ([], shape)

/-- Embedding of `NumbaEngine.apply_gate_density_matrix`: the sequence of pure-state
dispatches performed on the doubled index space, and the shape the
result is reshaped to.  The python `*targets` unpack in the one- and
two-target branches fixes the list shape matched here. -/
def apply_gate_density_matrix (gate : Gate) (nqubits : Nat) (inverse : Bool)
    (shape : List Nat) : List BaseCall × List Nat :=
  let name := gate.name
  if name = "Y" then apply_ygate_density_matrix gate nqubits shape
  else
    let matrix := if inverse then MatrixExpr.inverted else MatrixExpr.asCustom
    let qubits := create_qubits_tensor gate nqubits
    let qubits_dm := qubits.map (· + nqubits)
    let targets := gate.target_qubits
    let targets_dm := targets.map (· + nqubits)
    match targets with
    | [t] =>
        let op := gateOp name "apply_gate"
        ([BaseCall.one (one_qubit_base (2 * nqubits) t op matrix (some qubits_dm)),
          BaseCall.one (one_qubit_base (2 * nqubits) (t + nqubits) op
            (MatrixExpr.conj matrix) (some qubits))], shape)
    | [t1, t2] =>
        let op := gateOp name "apply_two_qubit_gate"
        ([BaseCall.two (two_qubit_base (2 * nqubits) t1 t2 op matrix (some qubits_dm)),
          BaseCall.two (two_qubit_base (2 * nqubits) (t1 + nqubits) (t2 + nqubits) op
            (MatrixExpr.conj matrix) (some qubits))], shape)
    | _ =>
        ([BaseCall.multi (multi_qubit_base (2 * nqubits) targets matrix (some qubits_dm)),
          BaseCall.multi (multi_qubit_base (2 * nqubits) targets_dm
            (MatrixExpr.conj matrix) (some qubits))], shape)

end Numba

namespace Sem

open Matrix

variable {K : Type} [Field K] {d : Nat}

/-- The explicit adjugate-based matrix inverse, the computable form of
`np.linalg.inv` over an exact field. -/
def matInv (M : Matrix (Fin d) (Fin d) K) : Matrix (Fin d) (Fin d) K :=
  M.det⁻¹ • M.adjugate

/-- The adjugate-based inverse agrees with Mathlib's matrix inverse. -/
theorem matInv_eq (M : Matrix (Fin d) (Fin d) K) : matInv M = M⁻¹ := by
  rw [matInv, Matrix.inv_def, Ring.inverse_eq_inv]

variable [StarRing K]

/-- Modelled from the spec: the numeric kernels invoked by
`NumbaEngine.apply_gate_density_matrix` live in
`qibojit.custom_operators`, which is not part of the sources here.
Following §4.5 of the spec, a density-matrix gate application realizes
ρ' = M ρ M† (ket side with the matrix, bra side with its conjugate), and
the `inverse` mode applies the matrix inverse on both sides instead. -/
def apply_gate_density_matrix (M : Matrix (Fin d) (Fin d) K)
    (ρ : Matrix (Fin d) (Fin d) K) (inverse : Bool) :
    Matrix (Fin d) (Fin d) K :=
  if inverse then matInv M * ρ * (matInv M)ᴴ else M * ρ * Mᴴ

/-- The loop body of `NumbaEngine.apply_channel_density_matrix`:
for each `(coeff, gate)` pair in order, apply the gate to the shared
buffer, accumulate `coeff • buffer` into `new_state`, then apply the
inverse-mode gate to the shared buffer. -/
def channelLoop (l : List (K × Matrix (Fin d) (Fin d) K))
    (state new_state : Matrix (Fin d) (Fin d) K) :
    Matrix (Fin d) (Fin d) K :=
  match l with
  | [] => new_state
  | (coeff, g) :: rest =>
      let state1 := apply_gate_density_matrix g state false
      let new1 := new_state + coeff • state1
      let state2 := apply_gate_density_matrix g state1 true
      channelLoop rest state2 new1

/-- A channel as consumed by the engine: ordered coefficients and Kraus
gates, plus the `coefficient_sum` attribute. -/
structure Channel (K : Type) (d : Nat) where
  coefficients : List K
  gates : List (Matrix (Fin d) (Fin d) K)
  coefficient_sum : K

/-- Embedding of `NumbaEngine.apply_channel_density_matrix`:
`new_state = (1 - coefficient_sum) * state`, then the accumulation loop
over `zip(coefficients, gates)`. -/
def apply_channel_density_matrix (ch : Channel K d)
    (ρ : Matrix (Fin d) (Fin d) K) : Matrix (Fin d) (Fin d) K :=
  channelLoop (ch.coefficients.zip ch.gates) ρ ((1 - ch.coefficient_sum) • ρ)

/-- Applying a gate and then its inverse-mode application restores the
buffer, provided the gate matrix is invertible. -/
theorem apply_gate_density_matrix_inverse_cancel
    (M ρ : Matrix (Fin d) (Fin d) K) (h : IsUnit M.det) :
    apply_gate_density_matrix M (apply_gate_density_matrix M ρ false) true = ρ := by
  have hH : IsUnit (Mᴴ).det := by
    rw [Matrix.det_conjTranspose]
    exact h.star
  simp only [apply_gate_density_matrix, if_pos, if_neg, Bool.false_eq_true,
    not_false_iff, ite_true, ite_false, matInv_eq]
  rw [Matrix.conjTranspose_nonsing_inv]
  calc M⁻¹ * (M * ρ * Mᴴ) * Mᴴ⁻¹
      = (M⁻¹ * M) * ρ * (Mᴴ * Mᴴ⁻¹) := by
        simp only [Matrix.mul_assoc]
    _ = ρ := by
        rw [Matrix.nonsing_inv_mul M h, Matrix.mul_nonsing_inv _ hH,
          Matrix.one_mul, Matrix.mul_one]

/-- The accumulation loop computes `new_state` plus the weighted sum of
the conjugated buffers, when every gate in the list is invertible. -/
theorem channelLoop_eq (l : List (K × Matrix (Fin d) (Fin d) K))
    (ρ new_state : Matrix (Fin d) (Fin d) K)
    (h : ∀ p ∈ l, IsUnit (Matrix.det p.2)) :
    channelLoop l ρ new_state =
      new_state + (l.map (fun p => p.1 • (p.2 * ρ * p.2ᴴ))).sum := by
  induction l generalizing new_state with
  | nil => simp [channelLoop]
  | cons p rest ih =>
      obtain ⟨c, g⟩ := p
      have hg : IsUnit g.det := h (c, g) (List.mem_cons_self _ _)
      have hrest : ∀ q ∈ rest, IsUnit (Matrix.det q.2) :=
        fun q hq => h q (List.mem_cons_of_mem _ hq)
      simp only [channelLoop]
      rw [apply_gate_density_matrix_inverse_cancel g ρ hg, ih _ hrest]
      simp only [apply_gate_density_matrix, Bool.false_eq_true, ite_false,
        List.map_cons, List.sum_cons]
      abel

/-- A run of zero-weight Kraus operators contributes nothing to the
accumulator, whatever happens to the shared buffer. -/
theorem channelLoop_zero_coeffs (l : List (K × Matrix (Fin d) (Fin d) K))
    (s new_state : Matrix (Fin d) (Fin d) K) (h : ∀ p ∈ l, p.1 = 0) :
    channelLoop l s new_state = new_state := by
  induction l generalizing s new_state with
  | nil => rfl
  | cons p rest ih =>
      obtain ⟨c, g⟩ := p
      have hc : c = 0 := h (c, g) (List.mem_cons_self _ _)
      have hrest : ∀ q ∈ rest, q.1 = 0 :=
        fun q hq => h q (List.mem_cons_of_mem _ hq)
      simp only [channelLoop]
      rw [ih _ _ hrest, hc, zero_smul, add_zero]

/-- A leading run of zero-weight, invertible Kraus operators leaves both
the shared buffer and the accumulator unchanged. -/
theorem channelLoop_append_zero (P rest : List (K × Matrix (Fin d) (Fin d) K))
    (ρ new_state : Matrix (Fin d) (Fin d) K) (hP0 : ∀ p ∈ P, p.1 = 0)
    (hPinv : ∀ p ∈ P, IsUnit (Matrix.det p.2)) :
    channelLoop (P ++ rest) ρ new_state = channelLoop rest ρ new_state := by
  induction P with
  | nil => rfl
  | cons p P' ih =>
      obtain ⟨c, g⟩ := p
      have hc : c = 0 := hP0 (c, g) (List.mem_cons_self _ _)
      have hg : IsUnit g.det := hPinv (c, g) (List.mem_cons_self _ _)
      simp only [List.cons_append, channelLoop]
      rw [apply_gate_density_matrix_inverse_cancel g ρ hg, hc, zero_smul,
        add_zero]
      exact ih (fun q hq => hP0 q (List.mem_cons_of_mem _ hq))
        (fun q hq => hPinv q (List.mem_cons_of_mem _ hq))

end Sem

namespace Numba

@[simp] theorem one_qubit_base_nq (nq t : Nat) (k : String) (gm : MatrixExpr)
    (q : Option (List Nat)) : (one_qubit_base nq t k gm q).nq = nq := by
  simp only [one_qubit_base]
  split <;> rfl

@[simp] theorem one_qubit_base_target (nq t : Nat) (k : String)
    (gm : MatrixExpr) (q : Option (List Nat)) :
    (one_qubit_base nq t k gm q).target = t := by
  simp only [one_qubit_base]
  split <;> rfl

@[simp] theorem one_qubit_base_opIn (nq t : Nat) (k : String) (gm : MatrixExpr)
    (q : Option (List Nat)) : (one_qubit_base nq t k gm q).opIn = k := by
  simp only [one_qubit_base]
  split <;> rfl

@[simp] theorem one_qubit_base_gateIn (nq t : Nat) (k : String)
    (gm : MatrixExpr) (q : Option (List Nat)) :
    (one_qubit_base nq t k gm q).gateIn = gm := by
  simp only [one_qubit_base]
  split <;> rfl

@[simp] theorem one_qubit_base_qubitsIn (nq t : Nat) (k : String)
    (gm : MatrixExpr) (q : Option (List Nat)) :
    (one_qubit_base nq t k gm q).qubitsIn = q := by
  simp only [one_qubit_base]
  split <;> rfl

@[simp] theorem two_qubit_base_nq (nq t1 t2 : Nat) (k : String)
    (gm : MatrixExpr) (q : Option (List Nat)) :
    (two_qubit_base nq t1 t2 k gm q).nq = nq := by
  simp only [two_qubit_base]
  split <;> rfl

@[simp] theorem two_qubit_base_target1 (nq t1 t2 : Nat) (k : String)
    (gm : MatrixExpr) (q : Option (List Nat)) :
    (two_qubit_base nq t1 t2 k gm q).target1 = t1 := by
  simp only [two_qubit_base]
  split <;> rfl

@[simp] theorem two_qubit_base_target2 (nq t1 t2 : Nat) (k : String)
    (gm : MatrixExpr) (q : Option (List Nat)) :
    (two_qubit_base nq t1 t2 k gm q).target2 = t2 := by
  simp only [two_qubit_base]
  split <;> rfl

@[simp] theorem two_qubit_base_gateIn (nq t1 t2 : Nat) (k : String)
    (gm : MatrixExpr) (q : Option (List Nat)) :
    (two_qubit_base nq t1 t2 k gm q).gateIn = gm := by
  simp only [two_qubit_base]
  split <;> rfl

@[simp] theorem two_qubit_base_qubitsIn (nq t1 t2 : Nat) (k : String)
    (gm : MatrixExpr) (q : Option (List Nat)) :
    (two_qubit_base nq t1 t2 k gm q).qubitsIn = q := by
  simp only [two_qubit_base]
  split <;> rfl

end Numba

/-- Mapping targets into the shifted half of the doubled index space and
then taking bit positions there lands on the original bit positions. -/
theorem map_shift_positions (l : List Nat) (n : Nat) :
    (l.map (· + n)).map (fun x => 2 * n - x - 1)
      = l.map (fun x => n - x - 1) := by
  rw [List.map_map]
  apply List.map_congr_left
  intro a _
  simp only [Function.comp_apply]
  omega

/-- The property asserted by claim C1, at one-qubit dispatch arguments
`n` qubits, target `t`, qubits tensor `qs` holding `c` controls. -/
def C1Statement (n t c : Nat) (op ktype : String) (g : MatrixExpr)
    (qs : List Nat) : Prop :=
  ((Numba.one_qubit_base n t op g (some qs)).m : Int) = (n : Int) - t - 1
  ∧ (Numba.one_qubit_base n t op g (some qs)).nstates = 2 ^ (n - c - 1)
  ∧ ((Numba.one_qubit_base n t op g (some qs)).multicontrol = true ↔ 0 < c)
  ∧ (0 < c →
      (Numba.one_qubit_base n t op g (some qs)).kernelName =
          "multicontrol_" ++ op ++ "_kernel"
      ∧ (Numba.one_qubit_base n t op g (some qs)).qubitsPassed = some qs)
  ∧ (c = 0 →
      (Numba.one_qubit_base n t op g (some qs)).kernelName = op ++ "_kernel"
      ∧ (Numba.one_qubit_base n t op g (some qs)).qubitsPassed = none)
  ∧ ((Cupy.one_qubit_base n t op g (some qs) ktype).m : Int) = (n : Int) - t - 1
  ∧ (Cupy.one_qubit_base n t op g (some qs) ktype).nstates = 2 ^ (n - c - 1)
  ∧ ((Cupy.one_qubit_base n t op g (some qs) ktype).multicontrol = true ↔ 0 < c)
  ∧ (0 < c →
      (Cupy.one_qubit_base n t op g (some qs) ktype).extra = some (qs, c + 1))

/-- Claim C1: for one target qubit `t` on `n` qubits with `c` controls,
both dispatchers compute bit position `m = n - t - 1` and
`nstates = 2^(n - c - 1)`, and they select the multicontrol kernel
variant exactly when `c > 0`, passing the qubits tensor to it. -/
theorem C1_one_qubit_dispatch (n t c : Nat) (op ktype : String)
    (g : MatrixExpr) (qs : List Nat) (ht : t < n) (hc : c + 1 ≤ n)
    (hlen : qs.length = c + 1) : C1Statement n t c op ktype g qs := by
  have hnc : ncontrols1 (some qs) = c := by simp [ncontrols1, hlen]
  unfold C1Statement
  rcases Nat.eq_zero_or_pos c with h0 | hpos
  · subst h0
    refine ⟨?_, ?_, ?_, ?_, ?_, ?_, ?_, ?_, ?_⟩ <;>
      simp [Numba.one_qubit_base, Cupy.one_qubit_base, hnc] <;> omega
  · have hne : c ≠ 0 := hpos.ne'
    refine ⟨?_, ?_, ?_, ?_, ?_, ?_, ?_, ?_, ?_⟩ <;>
      simp [Numba.one_qubit_base, Cupy.one_qubit_base, hnc, hne, hpos] <;>
      omega

/-- Witness for C1 at `n = 3`, `t = 1`, one control, tensor `[0, 2]`. -/
theorem C1_one_qubit_dispatch_witness :
    ((1 : Nat) < 3 ∧ 1 + 1 ≤ 3 ∧ ([0, 2] : List Nat).length = 1 + 1)
    ∧ C1Statement 3 1 1 "apply_gate" "double" MatrixExpr.asCustom [0, 2] :=
  ⟨⟨by decide, by decide, by decide⟩,
    C1_one_qubit_dispatch 3 1 1 "apply_gate" "double" MatrixExpr.asCustom
      [0, 2] (by decide) (by decide) (by decide)⟩

/-- The property asserted by claim C2, at two-qubit dispatch arguments
`n` qubits, targets `t1, t2`, qubits tensor `qs` holding `c` controls. -/
def C2Statement (n t1 t2 c : Nat) (op ktype : String) (g : MatrixExpr)
    (qs : List Nat) : Prop :=
  ((Numba.two_qubit_base n t1 t2 op g (some qs)).swap_targets = true ↔ t1 > t2)
  ∧ (Numba.two_qubit_base n t1 t2 op g (some qs)).m1 = n - max t1 t2 - 1
  ∧ (Numba.two_qubit_base n t1 t2 op g (some qs)).m2 = n - min t1 t2 - 1
  ∧ (Numba.two_qubit_base n t1 t2 op g (some qs)).nstates = 2 ^ (n - 2 - c)
  ∧ (Cupy.two_qubit_base n t1 t2 op g (some qs) ktype).m1 = n - max t1 t2 - 1
  ∧ (Cupy.two_qubit_base n t1 t2 op g (some qs) ktype).m2 = n - min t1 t2 - 1
  ∧ (Cupy.two_qubit_base n t1 t2 op g (some qs) ktype).nstates = 2 ^ (n - 2 - c)

/-- Claim C2: for two targets `t1, t2` on `n` qubits with `c` controls,
a `swap_targets` flag is recorded which is `true` exactly when
`t1 > t2`, `m1` is the bit position of the larger and `m2` of the
smaller target index, and `nstates = 2^(n - 2 - c)`. -/
theorem C2_two_qubit_dispatch (n t1 t2 c : Nat) (op ktype : String)
    (g : MatrixExpr) (qs : List Nat) (ht1 : t1 < n) (ht2 : t2 < n)
    (hc : c + 2 ≤ n) (hlen : qs.length = c + 2) :
    C2Statement n t1 t2 c op ktype g qs := by
  have hnc : ncontrols2 (some qs) = c := by simp [ncontrols2, hlen]
  unfold C2Statement
  have hmax : (if t1 > t2 then n - t1 - 1 else n - t2 - 1)
      = n - max t1 t2 - 1 := by
    rcases Nat.lt_or_ge t2 t1 with h | h
    · rw [if_pos h, Nat.max_eq_left h.le]
    · rw [if_neg (Nat.not_lt.mpr h), Nat.max_eq_right h]
  have hmin : (if t1 > t2 then n - t2 - 1 else n - t1 - 1)
      = n - min t1 t2 - 1 := by
    rcases Nat.lt_or_ge t2 t1 with h | h
    · rw [if_pos h, Nat.min_eq_right h.le]
    · rw [if_neg (Nat.not_lt.mpr h), Nat.min_eq_left h]
  rcases Nat.eq_zero_or_pos c with h0 | hpos
  · subst h0
    refine ⟨?_, ?_, ?_, ?_, ?_, ?_, ?_⟩ <;>
      simp only [Numba.two_qubit_base, Cupy.two_qubit_base, hnc, ne_eq,
        not_true_eq_false, ite_false, hmax, hmin] <;>
      first
        | (by_cases h : t1 > t2 <;> simp [h])
        | omega
        | rfl
  · have hne : c ≠ 0 := hpos.ne'
    refine ⟨?_, ?_, ?_, ?_, ?_, ?_, ?_⟩ <;>
      simp only [Numba.two_qubit_base, Cupy.two_qubit_base, hnc, ne_eq, hne,
        not_false_iff, ite_true, hmax, hmin] <;>
      first
        | (by_cases h : t1 > t2 <;> simp [h])
        | omega
        | rfl

/-- Witness for C2 at `n = 4`, `t1 = 2 > t2 = 0`, one control. -/
theorem C2_two_qubit_dispatch_witness :
    ((2 : Nat) < 4 ∧ (0 : Nat) < 4 ∧ 1 + 2 ≤ 4
      ∧ ([1, 2, 3] : List Nat).length = 1 + 2)
    ∧ C2Statement 4 2 0 1 "apply_two_qubit_gate" "double"
        MatrixExpr.asCustom [1, 2, 3] :=
  ⟨⟨by decide, by decide, by decide, by decide⟩,
    C2_two_qubit_dispatch 4 2 0 1 "apply_two_qubit_gate" "double"
      MatrixExpr.asCustom [1, 2, 3] (by decide) (by decide) (by decide)
      (by decide)⟩

/-- The property asserted by claim C3 for gate `g` on `n` qubits. -/
def C3Statement (g : Gate) (n : Nat) : Prop :=
  List.Sorted (· ≤ ·) (create_qubits_tensor g n)
  ∧ List.Perm (create_qubits_tensor g n)
      ((g.control_qubits ++ g.target_qubits).map (fun q => n - q - 1))
  ∧ (Numba.multi_qubit_base n g.target_qubits MatrixExpr.asCustom
      (some (create_qubits_tensor g n))).qubitsUsed = create_qubits_tensor g n
  ∧ (Numba.multi_qubit_base n g.target_qubits MatrixExpr.asCustom
      (some (create_qubits_tensor g n))).targetMasks
      = g.target_qubits.reverse.map (fun t => 2 ^ (n - t - 1))
  ∧ (Numba.multi_qubit_base n g.target_qubits MatrixExpr.asCustom
      (some (create_qubits_tensor g n))).nstates
      = 2 ^ (n - (create_qubits_tensor g n).length)

/-- Claim C3: for `k ≥ 3` targets, the qubits tensor is the control and
target indices converted to bit positions `n - q - 1`, sorted ascending;
the target masks are `2^(n - t - 1)` over the targets in reverse order;
and `nstates = 2^(n - |qubits tensor|)`. -/
theorem C3_multi_qubit_dispatch (g : Gate) (n : Nat)
    (hk : 3 ≤ g.target_qubits.length) : C3Statement g n := by
  refine ⟨?_, ?_, rfl, rfl, rfl⟩
  · exact List.sorted_insertionSort _ _
  · have h2 : (g.control_qubits ++ g.target_qubits).map (fun q => n - q - 1)
        = g.control_qubits.map (fun q => n - q - 1)
          ++ g.target_qubits.map (fun q => n - q - 1) :=
      List.map_append _ _ _
    rw [create_qubits_tensor, h2]
    exact List.perm_insertionSort _ _

/-- Witness for C3: a three-target gate with one control on 4 qubits. -/
theorem C3_multi_qubit_dispatch_witness :
    3 ≤ (Gate.mk "ccz" [0, 1, 2] [3]).target_qubits.length
    ∧ C3Statement (Gate.mk "ccz" [0, 1, 2] [3]) 4 :=
  ⟨by decide, C3_multi_qubit_dispatch (Gate.mk "ccz" [0, 1, 2] [3]) 4 (by decide)⟩

/-- The property asserted by claim C8 for `nstates` update groups. -/
def C8Statement (nstates : Nat) : Prop :=
  (Cupy.DEFAULT_BLOCK_SIZE ≤ nstates →
    Cupy.calculate_blocks nstates Cupy.DEFAULT_BLOCK_SIZE
      = (nstates ⌈/⌉ Cupy.DEFAULT_BLOCK_SIZE, Cupy.DEFAULT_BLOCK_SIZE))
  ∧ (nstates < Cupy.DEFAULT_BLOCK_SIZE →
    Cupy.calculate_blocks nstates Cupy.DEFAULT_BLOCK_SIZE = (1, nstates))
  ∧ (Cupy.calculate_blocks nstates Cupy.DEFAULT_BLOCK_SIZE).1
      = nstates ⌈/⌉ Cupy.DEFAULT_BLOCK_SIZE
  ∧ Cupy.calculate_blocks 500 Cupy.DEFAULT_BLOCK_SIZE = (1, 500)
  ∧ Cupy.calculate_blocks 3000 Cupy.DEFAULT_BLOCK_SIZE = (3, 1024)

/-- Claim C8: with the default block size `B = 1024`, the GPU sizing
returns `⌈nstates / B⌉` blocks of size `B` when `nstates ≥ B`, and
exactly one block of size `nstates` when `nstates < B`; in particular
`nstates = 500 ↦ (1, 500)` and `nstates = 3000 ↦ (3, 1024)`. -/
theorem C8_calculate_blocks (nstates : Nat) (h : 1 ≤ nstates) :
    C8Statement nstates := by
  unfold C8Statement
  refine ⟨?_, ?_, ?_, by decide, by decide⟩
  · intro hge
    simp only [Cupy.DEFAULT_BLOCK_SIZE] at hge ⊢
    rw [Cupy.calculate_blocks, Nat.ceilDiv_eq_add_pred_div,
      if_neg (Nat.not_lt.mpr hge)]
  · intro hlt
    simp only [Cupy.DEFAULT_BLOCK_SIZE] at hlt ⊢
    rw [Cupy.calculate_blocks, if_pos hlt]
  · simp only [Cupy.DEFAULT_BLOCK_SIZE]
    rw [Cupy.calculate_blocks, Nat.ceilDiv_eq_add_pred_div]
    rcases Nat.lt_or_ge nstates 1024 with hlt | hge
    · rw [if_pos hlt]
      omega
    · rw [if_neg (Nat.not_lt.mpr hge)]

/-- Witness for C8 at `nstates = 500`. -/
theorem C8_calculate_blocks_witness : (1 : Nat) ≤ 500 ∧ C8Statement 500 :=
  ⟨by decide, C8_calculate_blocks 500 (by decide)⟩

/-- Counterexample to claim C9: `NumbaEngine.multi_qubit_base` performs
no arity check; with 8 target qubits on 9 qubits it silently dispatches
the generic multi-qubit kernel instead of failing. -/
theorem C9_counterexample :
    7 < ([0, 1, 2, 3, 4, 5, 6, 7] : List Nat).length
    ∧ (Numba.multi_qubit_base 9 [0, 1, 2, 3, 4, 5, 6, 7] MatrixExpr.asCustom
        (some [1, 2, 3, 4, 5, 6, 7, 8])).kernel
        = some "apply_multi_qubit_gate_kernel" := by
  exact ⟨by decide, rfl⟩

/-- Claim C9 as amended: only `CupyEngine.multi_qubit_base` rejects more
than 7 target qubits (with a `ValueError`); `NumbaEngine.multi_qubit_base`
performs no such check and dispatches the generic multi-qubit kernel. -/
theorem C9_arity_check (n : Nat) (targets : List Nat) (g : MatrixExpr)
    (qubits : List Nat) (ktype : String) (h : 7 < targets.length) :
    (∃ msg, Cupy.multi_qubit_base n targets g qubits ktype = Except.error msg)
    ∧ (Numba.multi_qubit_base n targets g (some qubits)).kernel
        = some "apply_multi_qubit_gate_kernel" := by
  constructor
  · simp only [Cupy.multi_qubit_base]
    rw [if_pos (show targets.length > Cupy.MAX_NUM_TARGETS from h)]
    exact ⟨_, rfl⟩
  · simp only [Numba.multi_qubit_base]
    rw [if_pos (show targets.length > 5 by omega)]

/-- The property asserted by claim C4 for gate `g` on an `n`-qubit
density matrix of shape `shape`: exactly two pure-state dispatches over
`2n` qubits, the first (ket side) with every target bit position and
every qubits-tensor entry shifted by `n` and the unmodified matrix, the
second (bra side) at the original unshifted bit positions with the
conjugated matrix, and the result reshaped to the input shape. -/
def C4Statement (g : Gate) (n : Nat) (shape : List Nat) : Prop :=
  (Numba.apply_gate_density_matrix g n false shape).2 = shape
  ∧ ∃ c0 c1 : Numba.BaseCall,
      (Numba.apply_gate_density_matrix g n false shape).1 = [c0, c1]
      ∧ c0.nq = 2 * n ∧ c1.nq = 2 * n
      ∧ c0.gateIn = MatrixExpr.asCustom
      ∧ c0.qubitsIn = some ((create_qubits_tensor g n).map (· + n))
      ∧ c0.targetPositions = g.target_qubits.map (fun t => (n - t - 1) + n)
      ∧ c1.gateIn = MatrixExpr.conj MatrixExpr.asCustom
      ∧ c1.qubitsIn = some (create_qubits_tensor g n)
      ∧ c1.targetPositions = g.target_qubits.map (fun t => n - t - 1)

/-- Claim C4: a density-matrix gate application (not `Y`, not inverse
mode) is exactly two pure-state applications over `2n` qubits, ket side
first in the `n`-shifted index positions with the unmodified matrix,
then bra side at the original positions with the conjugated matrix, and
the result is reshaped back to the input shape. -/
theorem C4_density_matrix_adapter (g : Gate) (n : Nat) (shape : List Nat)
    (hY : g.name ≠ "Y") (ht : ∀ t ∈ g.target_qubits, t < n) :
    C4Statement g n shape := by
  unfold C4Statement
  rcases hts : g.target_qubits with _ | ⟨t1, ts⟩
  · simp only [Numba.apply_gate_density_matrix, hts, if_neg hY]
    refine ⟨trivial, _, _, rfl, rfl, rfl, rfl, rfl, ?_, rfl, rfl, ?_⟩ <;>
      simp [Numba.BaseCall.targetPositions, Numba.BaseCall.rawTargets,
        Numba.BaseCall.nq, Numba.multi_qubit_base]
  · rcases ts with _ | ⟨t2, ts2⟩
    · have ht1 : t1 < n := ht t1 (by rw [hts]; exact List.mem_singleton_self _)
      simp only [Numba.apply_gate_density_matrix, hts, if_neg hY]
      refine ⟨trivial, _, _, rfl, ?_, ?_, ?_, ?_, ?_, ?_, ?_, ?_⟩ <;>
        simp [Numba.BaseCall.targetPositions, Numba.BaseCall.rawTargets,
          Numba.BaseCall.nq, Numba.BaseCall.gateIn, Numba.BaseCall.qubitsIn] <;>
        omega
    · rcases ts2 with _ | ⟨t3, ts3⟩
      · have ht1 : t1 < n := ht t1 (by rw [hts]; exact List.mem_cons_self _ _)
        have ht2 : t2 < n := ht t2 (by rw [hts]; simp)
        simp only [Numba.apply_gate_density_matrix, hts, if_neg hY]
        refine ⟨trivial, _, _, rfl, ?_, ?_, ?_, ?_, ?_, ?_, ?_, ?_⟩ <;>
          simp [Numba.BaseCall.targetPositions, Numba.BaseCall.rawTargets,
            Numba.BaseCall.nq, Numba.BaseCall.gateIn,
            Numba.BaseCall.qubitsIn] <;>
          constructor <;> omega
      · have htl : ∀ t ∈ t1 :: t2 :: t3 :: ts3, t < n := by rw [← hts]; exact ht
        simp only [Numba.apply_gate_density_matrix, hts, if_neg hY]
        refine ⟨trivial, _, _, rfl, rfl, rfl, rfl, rfl, ?_, rfl, rfl, ?_⟩
        · simp only [Numba.BaseCall.targetPositions, Numba.BaseCall.rawTargets,
            Numba.BaseCall.nq, Numba.multi_qubit_base]
          apply List.map_congr_left
          intro a ha
          have := htl a ha
          omega
        · simp only [Numba.BaseCall.targetPositions, Numba.BaseCall.rawTargets,
            Numba.BaseCall.nq, Numba.multi_qubit_base]
          exact map_shift_positions _ n

/-- Witness for C4: a non-Y single-target gate on one qubit. -/
theorem C4_density_matrix_adapter_witness :
    ((Gate.mk "H" [0] []).name ≠ "Y"
      ∧ ∀ t ∈ (Gate.mk "H" [0] []).target_qubits, t < 1)
    ∧ C4Statement (Gate.mk "H" [0] []) 1 [2, 2] :=
  ⟨⟨by decide, by decide⟩,
    C4_density_matrix_adapter (Gate.mk "H" [0] []) 1 [2, 2] (by decide)
      (by decide)⟩

/-- The property asserted by claim C5: the ket-side dispatch of the Y
density-matrix path names the specialized `apply_y` kernel, while the
bra-side dispatch names the generic `apply_gate` kernel and carries the
conjugated matrix. -/
def C5Statement (g : Gate) (n : Nat) (inverse : Bool) (shape : List Nat) :
    Prop :=
  ∃ c0 c1 : Numba.OneQubitCall,
    (Numba.apply_gate_density_matrix g n inverse shape).1
      = [Numba.BaseCall.one c0, Numba.BaseCall.one c1]
    ∧ c0.opIn = "apply_y"
    ∧ c1.opIn = "apply_gate"
    ∧ c1.opIn ≠ "apply_y"
    ∧ c1.gateIn = MatrixExpr.conj MatrixExpr.asCustom

/-- Claim C5: for a density-matrix application of the Pauli-Y gate, the
ket side uses the specialized `apply_y` kernel and the bra side the
generic `apply_gate` kernel with the conjugated matrix, not the
specialized one. -/
theorem C5_ygate_density_matrix (g : Gate) (n t : Nat) (inverse : Bool)
    (shape : List Nat) (hname : g.name = "Y") (htg : g.target_qubits = [t]) :
    C5Statement g n inverse shape := by
  unfold C5Statement
  simp only [Numba.apply_gate_density_matrix, hname, if_pos,
    Numba.apply_ygate_density_matrix, htg]
  refine ⟨_, _, rfl, ?_, ?_, ?_, ?_⟩ <;> simp

/-- Witness for C5: the Y gate on one qubit. -/
theorem C5_ygate_density_matrix_witness :
    ((Gate.mk "Y" [0] []).name = "Y"
      ∧ (Gate.mk "Y" [0] []).target_qubits = [0])
    ∧ C5Statement (Gate.mk "Y" [0] []) 1 false [2, 2] :=
  ⟨⟨by decide, by decide⟩,
    C5_ygate_density_matrix (Gate.mk "Y" [0] []) 1 0 false [2, 2] (by decide)
      (by decide)⟩

/-- The property asserted by claim C10: with a gate named `"Y"`, the
inverse-mode density-matrix application is identical to the forward one
and no dispatched matrix involves `np.linalg.inv`. -/
def C10Statement (g : Gate) (n : Nat) (shape : List Nat) : Prop :=
  Numba.apply_gate_density_matrix g n true shape
    = Numba.apply_gate_density_matrix g n false shape
  ∧ ∀ b ∈ (Numba.apply_gate_density_matrix g n true shape).1,
      (Numba.BaseCall.gateIn b).usesInv = false

/-- Claim C10: for a gate whose class name is `"Y"`, the density-matrix
application with `inverse` set takes the same code path as without: the
flag is ignored, no matrix inversion happens, and the forward
special-cased Y application runs. -/
theorem C10_ygate_inverse_ignored (g : Gate) (n : Nat) (shape : List Nat)
    (hname : g.name = "Y") : C10Statement g n shape := by
  unfold C10Statement
  constructor
  · simp only [Numba.apply_gate_density_matrix, hname, if_pos]
  · simp only [Numba.apply_gate_density_matrix, hname, if_pos,
      Numba.apply_ygate_density_matrix]
    rcases g.target_qubits with _ | ⟨t, ts⟩
    · simp
    · rcases ts with _ | ⟨t2, ts2⟩ <;>
        simp [Numba.BaseCall.gateIn, MatrixExpr.usesInv]

/-- Witness for C10: the Y gate on one qubit. -/
theorem C10_ygate_inverse_ignored_witness :
    (Gate.mk "Y" [0] []).name = "Y"
    ∧ C10Statement (Gate.mk "Y" [0] []) 1 [2, 2] :=
  ⟨by decide, C10_ygate_inverse_ignored (Gate.mk "Y" [0] []) 1 [2, 2]
    (by decide)⟩

/-- Witness for the amended C9 at 8 targets on 9 qubits. -/
theorem C9_arity_check_witness :
    7 < ([0, 1, 2, 3, 4, 5, 6, 7] : List Nat).length
    ∧ ((∃ msg, Cupy.multi_qubit_base 9 [0, 1, 2, 3, 4, 5, 6, 7]
          MatrixExpr.asCustom [1, 2, 3, 4, 5, 6, 7, 8] "double"
          = Except.error msg)
      ∧ (Numba.multi_qubit_base 9 [0, 1, 2, 3, 4, 5, 6, 7] MatrixExpr.asCustom
          (some [1, 2, 3, 4, 5, 6, 7, 8])).kernel
          = some "apply_multi_qubit_gate_kernel") :=
  ⟨by decide, C9_arity_check 9 [0, 1, 2, 3, 4, 5, 6, 7] MatrixExpr.asCustom
    [1, 2, 3, 4, 5, 6, 7, 8] "double" (by decide)⟩

section ChannelClaims

open Matrix

variable {K : Type} [Field K] [StarRing K] {d : Nat}

/-- The property asserted by claim C6 for channel `ch` applied to `ρ`:
the returned accumulator value equals
`(1 - Σpᵢ) ρ + Σ pᵢ Aᵢ ρ Aᵢ†`. -/
def C6Statement (ch : Sem.Channel K d) (ρ : Matrix (Fin d) (Fin d) K) :
    Prop :=
  Sem.apply_channel_density_matrix ch ρ
    = (1 - ch.coefficients.sum) • ρ
      + ((ch.coefficients.zip ch.gates).map
          (fun p => p.1 • (p.2 * ρ * p.2ᴴ))).sum

/-- Claim C6: the channel accumulator starts from
`(1 - Σpᵢ) ρ`, and with exact arithmetic and invertible Kraus matrices
the in-place apply/accumulate/undo loop returns
`(1 - Σpᵢ) ρ + Σ pᵢ Aᵢ ρ Aᵢ†`. -/
theorem C6_channel_accumulator (ch : Sem.Channel K d)
    (ρ : Matrix (Fin d) (Fin d) K)
    (hsum : ch.coefficient_sum = ch.coefficients.sum)
    (hinv : ∀ p ∈ ch.coefficients.zip ch.gates, IsUnit (Matrix.det p.2)) :
    C6Statement ch ρ := by
  unfold C6Statement Sem.apply_channel_density_matrix
  rw [Sem.channelLoop_eq _ _ _ hinv, hsum]

/-- Witness for C6: a depolarizing-style channel with a single identity
Kraus operator of weight `1/2` on a 1-dimensional space over `ℚ`. -/
theorem C6_channel_accumulator_witness :
    ((Sem.Channel.mk [(1 : ℚ)/2] [(1 : Matrix (Fin 1) (Fin 1) ℚ)]
        ((1 : ℚ)/2)).coefficient_sum
      = (Sem.Channel.mk [(1 : ℚ)/2] [(1 : Matrix (Fin 1) (Fin 1) ℚ)]
          ((1 : ℚ)/2)).coefficients.sum
    ∧ ∀ p ∈ (Sem.Channel.mk [(1 : ℚ)/2] [(1 : Matrix (Fin 1) (Fin 1) ℚ)]
          ((1 : ℚ)/2)).coefficients.zip
        (Sem.Channel.mk [(1 : ℚ)/2] [(1 : Matrix (Fin 1) (Fin 1) ℚ)]
          ((1 : ℚ)/2)).gates, IsUnit (Matrix.det p.2))
    ∧ C6Statement
        (Sem.Channel.mk [(1 : ℚ)/2] [(1 : Matrix (Fin 1) (Fin 1) ℚ)]
          ((1 : ℚ)/2))
        (1 : Matrix (Fin 1) (Fin 1) ℚ) :=
  ⟨⟨by simp,
    by
      intro p hp
      simp only [List.zip_cons_cons, List.zip_nil_right, List.mem_singleton] at hp
      subst hp
      simp⟩,
    C6_channel_accumulator _ _ (by simp)
      (by
        intro p hp
        simp only [List.zip_cons_cons, List.zip_nil_right,
          List.mem_singleton] at hp
        subst hp
        simp)⟩

/-- The property asserted by claim C7 for channel `ch`, Kraus matrix `A`
and density matrix `ρ`: applying the channel equals the plain
density-matrix application of `A`. -/
def C7Statement (ch : Sem.Channel K d) (A ρ : Matrix (Fin d) (Fin d) K) :
    Prop :=
  Sem.apply_channel_density_matrix ch ρ = Sem.apply_gate_density_matrix A ρ false

/-- Claim C7: a channel with one Kraus gate of weight 1 (all other
weights 0, coefficient sum 1, gates invertible) acts on a density matrix
exactly like plain density-matrix application of that gate. -/
theorem C7_single_kraus_channel (ch : Sem.Channel K d)
    (A ρ : Matrix (Fin d) (Fin d) K)
    (P Q : List (K × Matrix (Fin d) (Fin d) K))
    (hzip : ch.coefficients.zip ch.gates = P ++ (1, A) :: Q)
    (hP : ∀ p ∈ P, p.1 = 0) (hQ : ∀ p ∈ Q, p.1 = 0)
    (hsum : ch.coefficient_sum = 1)
    (hPinv : ∀ p ∈ P, IsUnit (Matrix.det p.2)) :
    C7Statement ch A ρ := by
  unfold C7Statement Sem.apply_channel_density_matrix
  rw [hzip, hsum, sub_self, zero_smul,
    Sem.channelLoop_append_zero P _ ρ 0 hP hPinv]
  simp only [Sem.channelLoop]
  rw [Sem.channelLoop_zero_coeffs Q _ _ hQ]
  simp [Sem.apply_gate_density_matrix]

/-- Witness for C7: the single-Kraus identity channel of weight 1 over
`ℚ`. -/
theorem C7_single_kraus_channel_witness :
    ((Sem.Channel.mk [(1 : ℚ)] [(1 : Matrix (Fin 1) (Fin 1) ℚ)]
        1).coefficients.zip
      (Sem.Channel.mk [(1 : ℚ)] [(1 : Matrix (Fin 1) (Fin 1) ℚ)] 1).gates
      = [] ++ ((1 : ℚ), (1 : Matrix (Fin 1) (Fin 1) ℚ)) :: []
    ∧ (Sem.Channel.mk [(1 : ℚ)] [(1 : Matrix (Fin 1) (Fin 1) ℚ)]
        1).coefficient_sum = 1)
    ∧ C7Statement
        (Sem.Channel.mk [(1 : ℚ)] [(1 : Matrix (Fin 1) (Fin 1) ℚ)] 1)
        (1 : Matrix (Fin 1) (Fin 1) ℚ) (1 : Matrix (Fin 1) (Fin 1) ℚ) :=
  ⟨⟨rfl, rfl⟩,
    C7_single_kraus_channel _ _ _ [] [] rfl (by simp) (by simp) rfl (by simp)⟩

end ChannelClaims

end Qibojit
